import Mathlib

/-!
Shallow embedding of the RFM customer-segmentation engine of
`src/dashboard/dashboard.py` (lines 264-306), together with the pandas
primitives it relies on (`groupby(...).agg`, `Series.rank(method="first")`,
`pd.qcut(..., q=5, labels=...)`).

Modelling conventions:
- an order row is modelled by `OrderRow`; customer and order identifiers are
  `Nat` (pandas sorts group keys ascending, which only needs an ordered key
  type), purchase timestamps are whole days as `Int`, and payment amounts are
  exact rationals (`Rat`);
- `pd.qcut` is modelled by `qcut5`: quantile bin edges with linear
  interpolation at positions q*(n-1), a duplicate-edge check (pandas raises
  `ValueError: Bin edges must be unique` when edges repeat, which is also the
  mechanism that fires on an empty column, whose edges are all NaN), and
  right-closed buckets with the lowest bucket closed on the left
  (`include_lowest`);
- the dashboard wraps the whole page body in a single `except Exception`
  handler, so any pandas `ValueError` reaches the caller untyped; the engine
  is therefore modelled as `Except RfmError _` whose only code-produced
  constructor is `RfmError.valueError`.
-/

/-- The eight segment labels returned by `rfm_segment` in the source.
`cantLoseThem` stands for the Python string literal spelled
C-a-n-apostrophe-t Lose Them; the other constructors match the remaining
string literals one for one (Champions, Loyal Customers, Potential Loyalist,
Recent Customers, At Risk, Hibernating, Need Attention). -/
inductive Segment where
  | champions
  | loyalCustomers
  | potentialLoyalist
  | recentCustomers
  | atRisk
  | cantLoseThem
  | hibernating
  | needAttention
  deriving DecidableEq

/-- The fixed enumeration of the eight labels, in rule order 1-8. -/
def allSegments : List Segment :=
  [.champions, .loyalCustomers, .potentialLoyalist, .recentCustomers,
   .atRisk, .cantLoseThem, .hibernating, .needAttention]

/-- One input row of the filtered order table (`filtered_df`): columns
`customer_unique_id`, `order_id`, `order_purchase_timestamp` (whole days),
`total_payment`. -/
structure OrderRow where
  customer_id : Nat
  order_id : Nat
  purchase_ts : Int
  payment : Rat
  deriving DecidableEq

/-- One row of `rfm_df` after the `groupby(...).agg(...)` step and the
column renaming at line 272. -/
structure CustAgg where
  customer_id : Nat
  recency : Int
  frequency : Nat
  monetary : Rat
  deriving DecidableEq

/-- One row of the final `rfm_df` with scores, composite score and segment. -/
structure RfmRecord where
  customer_id : Nat
  recency : Int
  frequency : Nat
  monetary : Rat
  r_score : Nat
  f_score : Nat
  m_score : Nat
  rfm_score : Rat
  segment : Segment
  deriving DecidableEq

/-- Errors observable from the RFM computation. `emptyInputError` and
`degenerateDistributionError` are the typed failures named by the spec
(Modelled from the spec: the source never constructs them - it has no typed
error classes at all). `valueError` models the untyped `ValueError` raised
by `pd.qcut` when the computed bin edges are not unique; in the source it
propagates uncaught to the top-level `except Exception` handler at line 488. -/
inductive RfmError where
  | emptyInputError
  | degenerateDistributionError
  | valueError (msg : String)
  deriving DecidableEq

/-- The rows of one customer group: `filtered_df.groupby('customer_unique_id')`
restricted to key `c`, in original row order. -/
def rowsOf (rows : List OrderRow) (c : Nat) : List OrderRow :=
  rows.filter (fun row => row.customer_id == c)

/-- `filtered_df['order_purchase_timestamp'].max()` (line 264). -/
def globalMaxTs (rows : List OrderRow) : Int :=
  ((rows.map (·.purchase_ts)).max?).getD 0

/-- `reference_date = filtered_df['order_purchase_timestamp'].max() +
pd.Timedelta(days=1)` (line 264). -/
def referenceDate (rows : List OrderRow) : Int :=
  globalMaxTs rows + 1

/-- `x.max()` inside the groupby lambda: the most recent purchase timestamp
of customer `c`. -/
def custMaxTs (rows : List OrderRow) (c : Nat) : Int :=
  (((rowsOf rows c).map (·.purchase_ts)).max?).getD 0

/-- The groupby lambda `(reference_date - x.max()).days` (line 267). -/
def recencyOf (rows : List OrderRow) (c : Nat) : Int :=
  referenceDate rows - custMaxTs rows c

/-- `'order_id': 'nunique'` within the group of customer `c` (line 268). -/
def frequencyOf (rows : List OrderRow) (c : Nat) : Nat :=
  (((rowsOf rows c).map (·.order_id)).dedup).length

/-- `'total_payment': 'sum'` within the group of customer `c` (line 269). -/
def monetaryOf (rows : List OrderRow) (c : Nat) : Rat :=
  ((rowsOf rows c).map (·.payment)).sum

/-- The group keys of `groupby('customer_unique_id')`: the distinct customer
ids of the input, sorted ascending (pandas groupby uses `sort=True` by
default, so the rows of `rfm_df` are in ascending key order). -/
def groupKeys (rows : List OrderRow) : List Nat :=
  List.insertionSort (· ≤ ·) ((rows.map (·.customer_id)).dedup)

/-- Lines 266-272: `rfm_df = filtered_df.groupby('customer_unique_id').agg(...)`
followed by the renaming to `['customer_id','recency','frequency','monetary']`;
one aggregated row per distinct customer, in sorted key order. -/
def rfm_agg (rows : List OrderRow) : List CustAgg :=
  (groupKeys rows).map (fun c =>
    { customer_id := c
      recency := recencyOf rows c
      frequency := frequencyOf rows c
      monetary := monetaryOf rows c })

/-- Linearly interpolated quantile `i/5` of the ascending-sorted data, exactly
as `Series.quantile` computes it: position `p = (i/5)*(n-1)`, value
`sorted[floor p] + frac p * (sorted[floor p + 1] - sorted[floor p])`. -/
def quantileEdge (sorted : List Rat) (i : Nat) : Rat :=
  let n := sorted.length
  let p : Rat := (i : Rat) * ((n : Rat) - 1) / 5
  let k := p.floor.toNat
  let a := sorted.getD k 0
  let b := sorted.getD (k + 1) a
  a + (p - (p.floor : Rat)) * (b - a)

/-- The six bin edges `pd.qcut` computes for `q=5`: quantiles 0, 1/5, ..., 1
of the data. -/
def qcutEdges (xs : List Rat) : List Rat :=
  (List.range 6).map (quantileEdge (List.insertionSort (· ≤ ·) xs))

/-- The 1-based bucket a value falls into, given the six edges: the least
`k ≥ 1` with `v ≤ edges[k]` (right-closed intervals, first interval closed on
the left because `qcut` passes `include_lowest=True`); matches
`searchsorted(bins, v, side="left")` with the `v == bins[0]` adjustment. -/
def qcutBucket (edges : List Rat) (v : Rat) : Nat :=
  if v ≤ edges.getD 1 0 then 1
  else if v ≤ edges.getD 2 0 then 2
  else if v ≤ edges.getD 3 0 then 3
  else if v ≤ edges.getD 4 0 then 4
  else 5

/-- `pd.qcut(xs, q=5, labels=labels)`: `none` models the untyped
`ValueError: Bin edges must be unique` that pandas raises (default
`duplicates='raise'`) when the six quantile edges contain repeats - which is
also what happens on an empty column, whose edges are all NaN and hence all
equal; otherwise each value is labelled with the label of its bucket. -/
def qcut5 (xs : List Rat) (labels : List Nat) : Option (List Nat) :=
  if (qcutEdges xs).dedup.length = 6 then
    some (xs.map (fun v => labels.getD (qcutBucket (qcutEdges xs) v - 1) 0))
  else
    none

/-- `Series.rank(method='first')`: ascending ranks 1..n, ties broken by
position in the series (rank of element i = 1 + number of strictly smaller
values + number of equal values at earlier positions). -/
def rankFirst (xs : List Rat) : List Rat :=
  xs.enum.map (fun iv =>
    ((xs.countP (fun w => decide (w < iv.2)) +
      (xs.take iv.1).countP (fun w => decide (w = iv.2)) + 1 : Nat) : Rat))

/-- The label list `[5, 4, 3, 2, 1]` of the `r_score` qcut (line 275). -/
def rLabels : List Nat := [5, 4, 3, 2, 1]

/-- The label list `[1, 2, 3, 4, 5]` of the `f_score` and `m_score` qcuts
(lines 276-277). -/
def fmLabels : List Nat := [1, 2, 3, 4, 5]

/-- The column fed to the `r_score` qcut: `rfm_df['recency']` (line 275). -/
def rScoreInput (rows : List OrderRow) : List Rat :=
  (rfm_agg rows).map (fun a => (a.recency : Rat))

/-- The column fed to the `f_score` qcut:
`rfm_df['frequency'].rank(method='first')` (line 276). -/
def fScoreInput (rows : List OrderRow) : List Rat :=
  rankFirst ((rfm_agg rows).map (fun a => (a.frequency : Rat)))

/-- The column fed to the `m_score` qcut: `rfm_df['monetary']` (line 277). -/
def mScoreInput (rows : List OrderRow) : List Rat :=
  (rfm_agg rows).map (fun a => a.monetary)

/-- The ordered rule set of `rfm_segment` (lines 286-304), first match wins;
the final `else` is the Need Attention fallback. -/
def rfm_segment (r f m : Nat) : Segment :=
  if 4 ≤ r ∧ 4 ≤ f ∧ 4 ≤ m then .champions
  else if 3 ≤ r ∧ 4 ≤ f then .loyalCustomers
  else if 4 ≤ r ∧ 2 ≤ f ∧ f ≤ 3 then .potentialLoyalist
  else if 4 ≤ r ∧ f = 1 then .recentCustomers
  else if r ≤ 2 ∧ 3 ≤ f then .atRisk
  else if r ≤ 2 ∧ 4 ≤ m then .cantLoseThem
  else if r ≤ 2 ∧ f ≤ 2 then .hibernating
  else .needAttention

/-- Assembles one final `rfm_df` row from an aggregated row and its three
scores: `rfm_score = (r + f + m) / 3` (lines 279-283) and
`segment = rfm_segment(row)` (line 306). -/
def mkRecord (a : CustAgg) (r f m : Nat) : RfmRecord :=
  { customer_id := a.customer_id
    recency := a.recency
    frequency := a.frequency
    monetary := a.monetary
    r_score := r
    f_score := f
    m_score := m
    rfm_score := ((r : Rat) + (f : Rat) + (m : Rat)) / 3
    segment := rfm_segment r f m }

/-- The RFM engine, lines 264-306 of the source: aggregation, the three
quintile scorings, the composite score and the segmentation. A `ValueError`
raised by any of the three `pd.qcut` calls aborts the computation and is the
untyped error the top-level handler sees. -/
def rfmEngine (rows : List OrderRow) : Except RfmError (List RfmRecord) :=
  match qcut5 (rScoreInput rows) rLabels,
        qcut5 (fScoreInput rows) fmLabels,
        qcut5 (mScoreInput rows) fmLabels with
  | some rs, some fs, some ms =>
      Except.ok (((rfm_agg rows).zip (rs.zip (fs.zip ms))).map
        (fun p => mkRecord p.1 p.2.1 p.2.2.1 p.2.2.2))
  | _, _, _ => Except.error (RfmError.valueError "Bin edges must be unique")

/-- Modelled from the spec: the frequency ranks the spec prescribes, where
ties between customers with equal frequency are broken by stable original row
order - the position of each customer id within the input rows - instead of by
position in the sorted grouped table. Used only to compare the spec wording
with what the code computes. -/
def rankFirstSpecOrder (rows : List OrderRow) : List Rat :=
  (groupKeys rows).map (fun c =>
    (((groupKeys rows).countP (fun d =>
        decide (frequencyOf rows d < frequencyOf rows c ∨
          (frequencyOf rows d = frequencyOf rows c ∧
            (rows.map (·.customer_id)).findIdx (fun x => x == d) <
              (rows.map (·.customer_id)).findIdx (fun x => x == c)))) + 1 : Nat) : Rat))

/-- Scenario input of C9: five customers with one order each, distinct
purchase days 1..5 (so the recency and frequency axes also bin successfully)
and monetary values 10, 20, 30, 40, 1000. -/
def rowsC9 : List OrderRow :=
  [⟨1, 1, 1, 10⟩, ⟨2, 2, 2, 20⟩, ⟨3, 3, 3, 30⟩, ⟨4, 4, 4, 40⟩, ⟨5, 5, 5, 1000⟩]

/-- The engine output on `rowsC9`; used by witnesses of the hypothesis-bearing
theorems. -/
def outC9 : List RfmRecord := (rfmEngine rowsC9).toOption.getD []

/-- Degenerate input of C5: five customers with distinct purchase days but a
single distinct monetary value, so the monetary axis has fewer than 5 distinct
values and its quintile binning fails. -/
def rowsDeg : List OrderRow :=
  [⟨1, 1, 1, 100⟩, ⟨2, 2, 2, 100⟩, ⟨3, 3, 3, 100⟩, ⟨4, 4, 4, 100⟩, ⟨5, 5, 5, 100⟩]

/-- Tie-break input of C8: five customers with equal frequency (one order
each), presented in descending customer-id order 5,4,3,2,1. -/
def rowsTie : List OrderRow :=
  [⟨5, 50, 5, 50⟩, ⟨4, 40, 4, 40⟩, ⟨3, 30, 3, 30⟩, ⟨2, 20, 2, 20⟩, ⟨1, 10, 1, 10⟩]

/-- The same multiset of rows as `rowsTie`, presented in ascending
customer-id order. -/
def rowsTieSorted : List OrderRow :=
  [⟨1, 10, 1, 10⟩, ⟨2, 20, 2, 20⟩, ⟨3, 30, 3, 30⟩, ⟨4, 40, 4, 40⟩, ⟨5, 50, 5, 50⟩]

/-- One step of a running-maximum fold over optional values; folding it from
`none` recomputes `List.max?`. Only used to transport `max?` along
permutations of the input rows. -/
def maxStep (o : Option Int) (v : Int) : Option Int :=
  some (max (o.getD v) v)

instance : RightCommutative maxStep := by
  refine ⟨fun o a b => ?_⟩
  rcases o with _ | m <;> simp [maxStep] <;> omega

/-- Every `Segment` value is one of the eight enumerated labels. -/
theorem segment_mem_allSegments (s : Segment) : s ∈ allSegments := by
  cases s <;> simp [allSegments]

/-- C1: the segmentation rule set is total over score triples with components
in [1,5]: the function assigns exactly one of the eight pairwise-distinct
labels to every triple; and the triple (4,4,1) does not match rule 1
(Champions needs 4 ≤ m, but m = 1) and is caught by rule 2 (Loyal Customers,
since 3 ≤ r and 4 ≤ f). -/
theorem rfm_segment_total_first_match :
    (∀ r f m : Nat, 1 ≤ r → r ≤ 5 → 1 ≤ f → f ≤ 5 → 1 ≤ m → m ≤ 5 →
      rfm_segment r f m ∈ allSegments) ∧
    allSegments.Nodup ∧
    rfm_segment 4 4 1 = Segment.loyalCustomers ∧
    ¬ (4 ≤ (4 : Nat) ∧ 4 ≤ (4 : Nat) ∧ 4 ≤ (1 : Nat)) ∧
    (3 ≤ (4 : Nat) ∧ 4 ≤ (4 : Nat)) := by
  refine ⟨?_, by decide, by decide, by decide, by decide⟩
  intro r f m _ _ _ _ _ _
  exact segment_mem_allSegments _

/-- Witness for C1 at the concrete triple (3,2,5). -/
theorem rfm_segment_total_first_match_witness :
    rfm_segment 3 2 5 ∈ allSegments :=
  rfm_segment_total_first_match.1 3 2 5 (by decide) (by decide) (by decide)
    (by decide) (by decide) (by decide)

/-- C10: over score triples with components in [1,5], the fallback label
Need Attention is assigned iff r = 3 and f ≤ 3; in particular the monetary
score never influences membership in Need Attention. -/
theorem needAttention_iff_r3_fle3 :
    ∀ r f m : Nat, 1 ≤ r → r ≤ 5 → 1 ≤ f → f ≤ 5 → 1 ≤ m → m ≤ 5 →
      (rfm_segment r f m = Segment.needAttention ↔ (r = 3 ∧ f ≤ 3)) := by
  intro r f m hr1 hr5 hf1 hf5 hm1 hm5
  interval_cases r <;> interval_cases f <;> interval_cases m <;> decide

/-- Witness for C10 at the concrete triple (3,1,5). -/
theorem needAttention_iff_r3_fle3_witness :
    rfm_segment 3 1 5 = Segment.needAttention ↔ ((3 : Nat) = 3 ∧ (1 : Nat) ≤ 3) :=
  needAttention_iff_r3_fle3 3 1 5 (by decide) (by decide) (by decide) (by decide)
    (by decide) (by decide)

/-- C4 counterexample: on the empty input table the engine does not fail with
the typed EmptyInputError - the code has no typed errors at all. -/
theorem emptyInput_not_emptyInputError :
    rfmEngine [] ≠ Except.error RfmError.emptyInputError := by
  rw [show rfmEngine [] = Except.error (RfmError.valueError "Bin edges must be unique") from
    by with_unfolding_all rfl]
  intro h
  injection h with h2
  exact RfmError.noConfusion h2

/-- C4 amended: on the empty input table the engine fails, but with the
untyped ValueError raised by the first `pd.qcut` call (the quantile edges of
an empty column are all NaN, hence not unique), which propagates to the
generic top-level `except Exception` handler. -/
theorem emptyInput_untyped_valueError :
    rfmEngine [] = Except.error (RfmError.valueError "Bin edges must be unique") := by
  with_unfolding_all rfl

/-- C5 counterexample: on a population whose monetary axis has a single
distinct value (fewer than 5), the engine does not fail with the typed
DegenerateDistributionError - no such error exists in the code. -/
theorem degenerate_not_typed_error :
    rfmEngine rowsDeg ≠ Except.error RfmError.degenerateDistributionError := by
  rw [show rfmEngine rowsDeg =
      Except.error (RfmError.valueError "Bin edges must be unique") from
    by with_unfolding_all rfl]
  intro h
  injection h with h2
  exact RfmError.noConfusion h2

/-- C5 amended: when an axis has fewer than 5 distinct values and quintile
binning fails, the untyped ValueError from `pd.qcut` propagates unhandled to
the generic top-level `except Exception` handler; no documented degenerate
policy and no typed DegenerateDistributionError exist in the code. -/
theorem degenerate_untyped_valueError :
    rfmEngine rowsDeg = Except.error (RfmError.valueError "Bin edges must be unique") := by
  with_unfolding_all rfl

/-- C9: for an input of five customers with monetary values
[10, 20, 30, 40, 1000] (distinct purchase days so the other two axes bin),
the assigned m_score values are strictly increasing 1,2,3,4,5 in that value
order. -/
theorem mScore_increasing_scenario :
    (rfmEngine rowsC9).toOption.map
        (fun l => l.map (fun rec => (rec.monetary, rec.m_score)))
      = some [(10, 1), (20, 2), (30, 3), (40, 4), (1000, 5)] := by
  with_unfolding_all rfl

/-- C8 counterexample: the f_score column the code computes does not agree
with the spec-mandated tie-break by stable original row order: on `rowsTie`
(five equal-frequency customers input in descending id order) the two
disagree, because `rank(method="first")` runs over `rfm_df`, whose rows are
in ascending customer-id order after `groupby` (sort=True), not in original
input order. -/
theorem fScore_tiebreak_not_input_order :
    qcut5 (rankFirstSpecOrder rowsTie) fmLabels ≠ qcut5 (fScoreInput rowsTie) fmLabels := by
  with_unfolding_all decide

/-- A successful `qcut5` labels each input value with the label of its bucket. -/
theorem qcut5_eq_map (xs : List Rat) (labels : List Nat) (ys : List Nat)
    (h : qcut5 xs labels = some ys) :
    ys = xs.map (fun v => labels.getD (qcutBucket (qcutEdges xs) v - 1) 0) := by
  unfold qcut5 at h
  split at h
  · injection h with h2
    exact h2.symm
  · exact Option.noConfusion h

/-- A successful `qcut5` preserves the column length. -/
theorem qcut5_length (xs : List Rat) (labels : List Nat) (ys : List Nat)
    (h : qcut5 xs labels = some ys) : ys.length = xs.length := by
  rw [qcut5_eq_map xs labels ys h]
  simp

/-- `rank(method='first')` preserves the column length. -/
theorem rankFirst_length (xs : List Rat) : (rankFirst xs).length = xs.length := by
  unfold rankFirst
  simp

/-- Buckets are numbered 1 through 5. -/
theorem qcutBucket_range (edges : List Rat) (v : Rat) :
    1 ≤ qcutBucket edges v ∧ qcutBucket edges v ≤ 5 := by
  unfold qcutBucket
  split_ifs <;> decide

/-- Looking up either label list at a bucket in [1,5] yields a label in [1,5]. -/
theorem label_getD_range (labels : List Nat)
    (hl : labels = rLabels ∨ labels = fmLabels) (k : Nat) (h1 : 1 ≤ k) (h5 : k ≤ 5) :
    1 ≤ labels.getD (k - 1) 0 ∧ labels.getD (k - 1) 0 ≤ 5 := by
  rcases hl with rfl | rfl <;> interval_cases k <;> decide

/-- Every label a successful `qcut5` with one of the two label lists of the
source assigns lies in [1,5]. -/
theorem qcut5_range (xs : List Rat) (labels : List Nat)
    (hl : labels = rLabels ∨ labels = fmLabels) (ys : List Nat)
    (h : qcut5 xs labels = some ys) : ∀ y ∈ ys, 1 ≤ y ∧ y ≤ 5 := by
  intro y hy
  rw [qcut5_eq_map xs labels ys h] at hy
  rcases List.mem_map.1 hy with ⟨v, _, rfl⟩
  have hb := qcutBucket_range (qcutEdges xs) v
  exact label_getD_range labels hl _ hb.1 hb.2

/-- Structural elimination of a successful engine run into its three
successful qcuts and the zipped output. -/
theorem rfmEngine_ok_elim (rows : List OrderRow) (out : List RfmRecord)
    (h : rfmEngine rows = Except.ok out) :
    ∃ rs fs ms,
      qcut5 (rScoreInput rows) rLabels = some rs ∧
      qcut5 (fScoreInput rows) fmLabels = some fs ∧
      qcut5 (mScoreInput rows) fmLabels = some ms ∧
      out = ((rfm_agg rows).zip (rs.zip (fs.zip ms))).map
        (fun p => mkRecord p.1 p.2.1 p.2.2.1 p.2.2.2) := by
  unfold rfmEngine at h
  cases h1 : qcut5 (rScoreInput rows) rLabels with
  | none =>
    rw [h1] at h
    exact Except.noConfusion h
  | some rs =>
    cases h2 : qcut5 (fScoreInput rows) fmLabels with
    | none =>
      rw [h1, h2] at h
      exact Except.noConfusion h
    | some fs =>
      cases h3 : qcut5 (mScoreInput rows) fmLabels with
      | none =>
        rw [h1, h2, h3] at h
        exact Except.noConfusion h
      | some ms =>
        rw [h1, h2, h3] at h
        injection h with h4
        exact ⟨rs, fs, ms, rfl, rfl, rfl, h4.symm⟩

/-- The customer-id column of a successful engine output is exactly the
sorted list of distinct input customer ids. -/
theorem output_ids (rows : List OrderRow) (out : List RfmRecord)
    (h : rfmEngine rows = Except.ok out) :
    out.map (·.customer_id) = groupKeys rows := by
  rcases rfmEngine_ok_elim rows out h with ⟨rs, fs, ms, h1, h2, h3, rfl⟩
  have lr : rs.length = (rfm_agg rows).length := by
    have := qcut5_length _ _ _ h1
    simpa [rScoreInput] using this
  have lf : fs.length = (rfm_agg rows).length := by
    have := qcut5_length _ _ _ h2
    simpa [fScoreInput, rankFirst_length] using this
  have lm : ms.length = (rfm_agg rows).length := by
    have := qcut5_length _ _ _ h3
    simpa [mScoreInput] using this
  have lz : (rfm_agg rows).length ≤ (rs.zip (fs.zip ms)).length := by
    simp [List.length_zip, lr, lf, lm]
  calc (((rfm_agg rows).zip (rs.zip (fs.zip ms))).map
          (fun p => mkRecord p.1 p.2.1 p.2.2.1 p.2.2.2)).map (·.customer_id)
      = ((rfm_agg rows).zip (rs.zip (fs.zip ms))).map (fun p => p.1.customer_id) := by
        rw [List.map_map]
        rfl
    _ = (((rfm_agg rows).zip (rs.zip (fs.zip ms))).map Prod.fst).map (·.customer_id) := by
        rw [List.map_map]
        rfl
    _ = (rfm_agg rows).map (·.customer_id) := by
        rw [List.map_fst_zip _ _ lz]
    _ = groupKeys rows := by
        unfold rfm_agg
        rw [List.map_map]
        show (groupKeys rows).map id = groupKeys rows
        exact List.map_id _

/-- Every successful engine record matches its aggregated row: same customer
id and the aggregation formulas of that customer. -/
theorem output_record_agg (rows : List OrderRow) (out : List RfmRecord)
    (h : rfmEngine rows = Except.ok out) :
    ∀ rec ∈ out, ∃ c ∈ groupKeys rows,
      rec.customer_id = c ∧ rec.recency = recencyOf rows c ∧
      rec.frequency = frequencyOf rows c ∧ rec.monetary = monetaryOf rows c := by
  rcases rfmEngine_ok_elim rows out h with ⟨rs, fs, ms, h1, h2, h3, rfl⟩
  intro rec hrec
  rcases List.mem_map.1 hrec with ⟨p, hp, rfl⟩
  obtain ⟨a, r, f, m⟩ := p
  have ha : a ∈ rfm_agg rows := (List.of_mem_zip hp).1
  rcases List.mem_map.1 ha with ⟨c, hc, hac⟩
  refine ⟨c, hc, ?_, ?_, ?_, ?_⟩ <;> rw [← hac] <;> rfl

/-- C2: whenever the engine produces an output table, the table has exactly
one record per distinct customer id present in the input - no record dropped,
none duplicated - and every record carries one of the eight segment labels
(the Need Attention fallback makes the assignment total). -/
theorem one_record_per_customer (rows : List OrderRow) (out : List RfmRecord)
    (h : rfmEngine rows = Except.ok out) :
    (out.map (·.customer_id)).Nodup ∧
    (∀ c, c ∈ out.map (·.customer_id) ↔ c ∈ rows.map (·.customer_id)) ∧
    (∀ rec ∈ out, rec.segment ∈ allSegments) := by
  have hids := output_ids rows out h
  refine ⟨?_, ?_, ?_⟩
  · rw [hids]
    exact ((List.perm_insertionSort _ _).nodup_iff).2 (List.nodup_dedup _)
  · intro c
    rw [hids]
    unfold groupKeys
    rw [(List.perm_insertionSort _ _).mem_iff, List.mem_dedup]
  · intro rec _
    exact segment_mem_allSegments _

/-- Witness for C2: the engine output on `rowsC9`. -/
theorem one_record_per_customer_witness :
    (outC9.map (·.customer_id)).Nodup ∧
    (∀ c, c ∈ outC9.map (·.customer_id) ↔ c ∈ rowsC9.map (·.customer_id)) ∧
    (∀ rec ∈ outC9, rec.segment ∈ allSegments) :=
  one_record_per_customer rowsC9 outC9 (by with_unfolding_all rfl)

/-- C3: every record the engine outputs has frequency equal to the number of
distinct order ids among that customer's input rows and monetary equal to the
exact sum of the payment amounts of that customer's rows. -/
theorem frequency_monetary_exact (rows : List OrderRow) (out : List RfmRecord)
    (h : rfmEngine rows = Except.ok out) :
    ∀ rec ∈ out,
      rec.frequency = (((rowsOf rows rec.customer_id).map (·.order_id)).dedup).length ∧
      rec.monetary = ((rowsOf rows rec.customer_id).map (·.payment)).sum := by
  intro rec hrec
  rcases output_record_agg rows out h rec hrec with ⟨c, _, hcid, _, hf, hm⟩
  constructor
  · rw [hcid, hf]
    rfl
  · rw [hcid, hm]
    rfl

/-- C7: every record a successful engine run outputs has its three scores
between 1 and 5 inclusive. -/
theorem scores_between_1_and_5 (rows : List OrderRow) (out : List RfmRecord)
    (h : rfmEngine rows = Except.ok out) :
    ∀ rec ∈ out,
      (1 ≤ rec.r_score ∧ rec.r_score ≤ 5) ∧
      (1 ≤ rec.f_score ∧ rec.f_score ≤ 5) ∧
      (1 ≤ rec.m_score ∧ rec.m_score ≤ 5) := by
  rcases rfmEngine_ok_elim rows out h with ⟨rs, fs, ms, h1, h2, h3, rfl⟩
  intro rec hrec
  rcases List.mem_map.1 hrec with ⟨p, hp, rfl⟩
  obtain ⟨a, r, f, m⟩ := p
  have hz := List.of_mem_zip hp
  have hz2 := List.of_mem_zip hz.2
  have hz3 := List.of_mem_zip hz2.2
  exact ⟨qcut5_range _ _ (Or.inl rfl) _ h1 r hz2.1,
         qcut5_range _ _ (Or.inr rfl) _ h2 f hz3.1,
         qcut5_range _ _ (Or.inr rfl) _ h3 m hz3.2⟩

/-- The first record of the engine output on `rowsC9` (customer 1). -/
def recC9 : RfmRecord :=
  { customer_id := 1, recency := 5, frequency := 1, monetary := 10,
    r_score := 1, f_score := 1, m_score := 1, rfm_score := 1,
    segment := .hibernating }

/-- Witness for C3 at customer 1 of `rowsC9`. -/
theorem frequency_monetary_exact_witness :
    recC9.frequency = (((rowsOf rowsC9 recC9.customer_id).map (·.order_id)).dedup).length ∧
    recC9.monetary = ((rowsOf rowsC9 recC9.customer_id).map (·.payment)).sum :=
  frequency_monetary_exact rowsC9 outC9 (by with_unfolding_all rfl) recC9
    (by with_unfolding_all decide)

/-- Witness for C7 at customer 1 of `rowsC9`. -/
theorem scores_between_1_and_5_witness :
    (1 ≤ recC9.r_score ∧ recC9.r_score ≤ 5) ∧
    (1 ≤ recC9.f_score ∧ recC9.f_score ≤ 5) ∧
    (1 ≤ recC9.m_score ∧ recC9.m_score ≤ 5) :=
  scores_between_1_and_5 rowsC9 outC9 (by with_unfolding_all rfl) recC9
    (by with_unfolding_all decide)

/-- C6: (i) each aggregated record's recency is the number of days from the
reference instant - the global maximum purchase timestamp of the whole input
plus one day - back to that customer's most recent purchase timestamp;
(ii) scenario: a single customer with two orders on days 1 and 5 and payments
p and q aggregates to one record with recency 1 (reference day 6), frequency 2
and monetary p + q. -/
theorem recency_reference_and_scenario :
    (∀ rows : List OrderRow, ∀ a ∈ rfm_agg rows,
      a.recency = (globalMaxTs rows + 1) - custMaxTs rows a.customer_id) ∧
    (∀ p q : Rat, rfm_agg [⟨1, 1, 1, p⟩, ⟨1, 2, 5, q⟩] =
      [{ customer_id := 1, recency := 1, frequency := 2, monetary := p + q }]) := by
  constructor
  · intro rows a ha
    rcases List.mem_map.1 ha with ⟨c, _, rfl⟩
    rfl
  · intro p q
    have h1 : rfm_agg [⟨1, 1, 1, p⟩, ⟨1, 2, 5, q⟩]
        = [{ customer_id := 1, recency := 1, frequency := 2,
             monetary := monetaryOf [⟨1, 1, 1, p⟩, ⟨1, 2, 5, q⟩] 1 }] := by
      rfl
    have h2 : monetaryOf [⟨1, 1, 1, p⟩, ⟨1, 2, 5, q⟩] 1 = p + q := by
      simp [monetaryOf, rowsOf]
    rw [h1, h2]

/-- Witness for C6 at the two-order single-customer input with payments 10
and 20. -/
theorem recency_reference_and_scenario_witness :
    (⟨1, 1, 2, (30 : Rat)⟩ : CustAgg).recency
      = (globalMaxTs [⟨1, 1, 1, (10 : Rat)⟩, ⟨1, 2, 5, 20⟩] + 1)
        - custMaxTs [⟨1, 1, 1, (10 : Rat)⟩, ⟨1, 2, 5, 20⟩] 1 :=
  recency_reference_and_scenario.1 [⟨1, 1, 1, 10⟩, ⟨1, 2, 5, 20⟩] ⟨1, 1, 2, 30⟩
    (by with_unfolding_all decide)

/-- Over any column, the count of values strictly below `a` plus the count of
values equal to `a` is at most the count of values strictly below `b`, when
`a < b`. -/
theorem countP_lt_add_count_eq_le (xs : List Rat) (a b : Rat) (hab : a < b) :
    xs.countP (fun w => decide (w < a)) + xs.countP (fun w => decide (w = a))
      ≤ xs.countP (fun w => decide (w < b)) := by
  induction xs with
  | nil => simp
  | cons x t ih =>
    simp only [List.countP_cons, decide_eq_true_eq]
    by_cases h1 : x < a
    · have h2 : ¬ x = a := fun h => absurd (h ▸ h1) (lt_irrefl a)
      have h3 : x < b := h1.trans hab
      rw [if_pos h1, if_neg h2, if_pos h3]
      omega
    · by_cases h2 : x = a
      · have h3 : x < b := h2 ▸ hab
        rw [if_neg h1, if_pos h2, if_pos h3]
        omega
      · rw [if_neg h1, if_neg h2]
        by_cases h3 : x < b
        · rw [if_pos h3]
          omega
        · rw [if_neg h3]
          omega

/-- Taking one more element whose value is `v` raises the equal-to-`v` count
of the prefix by exactly one. -/
theorem countP_take_succ_eq (xs : List Rat) (i : Nat) (v : Rat) (h : xs[i]? = some v) :
    (xs.take (i + 1)).countP (fun t => decide (t = v))
      = (xs.take i).countP (fun t => decide (t = v)) + 1 := by
  rw [List.take_succ, h]
  simp [List.countP_append]

/-- A prefix count never exceeds the whole-column count. -/
theorem countP_take_le (xs : List Rat) (n : Nat) (p : Rat → Bool) :
    (xs.take n).countP p ≤ xs.countP p :=
  (xs.take_sublist n).countP_le p

/-- Prefix counts are monotone in the prefix length. -/
theorem countP_take_mono (xs : List Rat) (i j : Nat) (hij : i + 1 ≤ j) (p : Rat → Bool) :
    (xs.take (i + 1)).countP p ≤ (xs.take j).countP p := by
  have h : xs.take (i + 1) = (xs.take j).take (i + 1) := by
    rw [List.take_take, Nat.min_eq_left hij]
  rw [h]
  exact ((xs.take j).take_sublist (i + 1)).countP_le p

/-- `rank(method='first')` assigns pairwise-distinct ranks: ties on the value
are separated by the strictly increasing prefix count, and different values
are separated by the strictly-below count. -/
theorem rankFirst_nodup (xs : List Rat) : (rankFirst xs).Nodup := by
  unfold rankFirst
  refine List.Nodup.map_on ?_ (List.Nodup.of_map Prod.fst (List.nodup_enum_map_fst xs))
  intro p hp q hq hpq
  obtain ⟨i, v⟩ := p
  obtain ⟨j, w⟩ := q
  rw [List.mk_mem_enum_iff_getElem?] at hp hq
  dsimp only at hpq
  have hnat :
      xs.countP (fun t => decide (t < v)) + (xs.take i).countP (fun t => decide (t = v)) + 1
        = xs.countP (fun t => decide (t < w)) + (xs.take j).countP (fun t => decide (t = w)) + 1 := by
    exact_mod_cast hpq
  rcases lt_trichotomy v w with hvw | hvw | hvw
  · exfalso
    have h1 := countP_take_succ_eq xs i v hp
    have h2 := countP_take_le xs (i + 1) (fun t => decide (t = v))
    have h3 := countP_lt_add_count_eq_le xs v w hvw
    omega
  · subst hvw
    have hij : i = j := by
      rcases Nat.lt_trichotomy i j with h | h | h
      · exfalso
        have h1 := countP_take_succ_eq xs i v hp
        have h2 := countP_take_mono xs i j h (fun t => decide (t = v))
        omega
      · exact h
      · exfalso
        have h1 := countP_take_succ_eq xs j v hq
        have h2 := countP_take_mono xs j i h (fun t => decide (t = v))
        omega
    subst hij
    rfl
  · exfalso
    have h1 := countP_take_succ_eq xs j w hq
    have h2 := countP_take_le xs (j + 1) (fun t => decide (t = w))
    have h3 := countP_lt_add_count_eq_le xs w v hvw
    omega

/-- `List.max?` as a fold of `maxStep` from `none`. -/
theorem max?_eq_foldl_maxStep (l : List Int) : l.max? = l.foldl maxStep none := by
  cases l with
  | nil => rfl
  | cons x t =>
    have aux : ∀ (s : List Int) (b : Int), s.foldl maxStep (some b) = some (s.foldl max b) := by
      intro s
      induction s with
      | nil => intro b; rfl
      | cons y s ih =>
        intro b
        show s.foldl maxStep (maxStep (some b) y) = _
        rw [show maxStep (some b) y = some (max b y) from rfl, ih (max b y)]
        rfl
    show (x :: t).max? = t.foldl maxStep (maxStep none x)
    rw [show maxStep none x = some x from by simp [maxStep], aux t x]
    rfl

/-- `List.max?` is invariant under permutation. -/
theorem max?_perm {l l' : List Int} (h : l.Perm l') : l.max? = l'.max? := by
  rw [max?_eq_foldl_maxStep, max?_eq_foldl_maxStep]
  exact h.foldl_eq none

/-- A permutation of the input rows permutes each customer group. -/
theorem rowsOf_perm {rows rows' : List OrderRow} (h : rows.Perm rows') (c : Nat) :
    (rowsOf rows c).Perm (rowsOf rows' c) :=
  h.filter _

/-- The global maximum timestamp is invariant under permuting the rows. -/
theorem globalMaxTs_perm {rows rows' : List OrderRow} (h : rows.Perm rows') :
    globalMaxTs rows = globalMaxTs rows' := by
  unfold globalMaxTs
  rw [max?_perm (h.map _)]

/-- Each customer's maximum timestamp is invariant under permuting the rows. -/
theorem custMaxTs_perm {rows rows' : List OrderRow} (h : rows.Perm rows') (c : Nat) :
    custMaxTs rows c = custMaxTs rows' c := by
  unfold custMaxTs
  rw [max?_perm ((rowsOf_perm h c).map _)]

/-- Recency is invariant under permuting the rows. -/
theorem recencyOf_perm {rows rows' : List OrderRow} (h : rows.Perm rows') (c : Nat) :
    recencyOf rows c = recencyOf rows' c := by
  unfold recencyOf referenceDate
  rw [globalMaxTs_perm h, custMaxTs_perm h c]

/-- Frequency is invariant under permuting the rows. -/
theorem frequencyOf_perm {rows rows' : List OrderRow} (h : rows.Perm rows') (c : Nat) :
    frequencyOf rows c = frequencyOf rows' c := by
  unfold frequencyOf
  exact (((rowsOf_perm h c).map _).dedup).length_eq

/-- Monetary is invariant under permuting the rows. -/
theorem monetaryOf_perm {rows rows' : List OrderRow} (h : rows.Perm rows') (c : Nat) :
    monetaryOf rows c = monetaryOf rows' c := by
  unfold monetaryOf
  exact ((rowsOf_perm h c).map _).sum_eq

/-- The sorted distinct group keys are invariant under permuting the rows. -/
theorem groupKeys_perm {rows rows' : List OrderRow} (h : rows.Perm rows') :
    groupKeys rows = groupKeys rows' := by
  unfold groupKeys
  refine List.eq_of_perm_of_sorted ?_ (List.sorted_insertionSort _ _)
    (List.sorted_insertionSort _ _)
  exact (List.perm_insertionSort _ _).trans
    (((h.map _).dedup).trans (List.perm_insertionSort _ _).symm)

/-- The aggregated table is invariant under permuting the rows. -/
theorem rfm_agg_perm {rows rows' : List OrderRow} (h : rows.Perm rows') :
    rfm_agg rows = rfm_agg rows' := by
  unfold rfm_agg
  rw [groupKeys_perm h]
  apply List.map_congr_left
  intro c _
  rw [recencyOf_perm h c, frequencyOf_perm h c, monetaryOf_perm h c]

/-- The whole engine is invariant under permuting the input rows. -/
theorem rfmEngine_perm {rows rows' : List OrderRow} (h : rows.Perm rows') :
    rfmEngine rows = rfmEngine rows' := by
  unfold rfmEngine rScoreInput fScoreInput mScoreInput
  rw [rfm_agg_perm h]

/-- C8 amended: frequency ties are broken deterministically by position in the
grouped table, which is ordered by ascending customer id, not by original row
order. For every input, the ranked frequency column fed to binning has
pairwise-distinct ranks, and the engine output is fully determined by the
multiset of input rows - invariant under permuting them. On `rowsTie`
(customers presented 5,4,3,2,1, all with frequency 1) the engine assigns
distinct f_scores 1..5 in ascending customer-id order - so two customers with
identical frequency receive distinct f_scores - and the output equals that for
the ascending presentation `rowsTieSorted`. -/
theorem fScore_tiebreak_by_sorted_id :
    (∀ rows : List OrderRow, (fScoreInput rows).Nodup) ∧
    (∀ rows rows' : List OrderRow, rows.Perm rows' → rfmEngine rows = rfmEngine rows') ∧
    rfmEngine rowsTie = rfmEngine rowsTieSorted ∧
    (rfmEngine rowsTie).toOption.map
        (fun l => l.map (fun rec => (rec.customer_id, rec.f_score)))
      = some [(1, 1), (2, 2), (3, 3), (4, 4), (5, 5)] := by
  refine ⟨fun rows => rankFirst_nodup _, fun rows rows' h => rfmEngine_perm h, ?_, ?_⟩
  · with_unfolding_all rfl
  · with_unfolding_all rfl

/-- Witness for C8 at the concrete tied input and its reversal. -/
theorem fScore_tiebreak_by_sorted_id_witness :
    (fScoreInput rowsTie).Nodup ∧ rfmEngine rowsTie = rfmEngine rowsTieSorted :=
  ⟨fScore_tiebreak_by_sorted_id.1 rowsTie,
   fScore_tiebreak_by_sorted_id.2.1 rowsTie rowsTieSorted (by with_unfolding_all decide)⟩
